import Mathlib

/-!
Verification of the webhook-receiver service (`src/main.go`).

The Go program keeps a global in-memory `WebhookStore`: a slice of
`StoredWebhook` records, a monotone `nextID` counter and a capacity
`maxSize` (5 in the program).  HTTP handlers translate requests into the
store operations `Add`, `GetAll`, `GetByID` and `Clear`.

Shallow embedding conventions:
* the opaque Go payload (`interface{}` holding decoded JSON) is a type
  parameter `α`;
* `time.Now()` is an external input, passed to `Add` as a `Nat` argument;
* Go `int` is modelled as `Int` (IDs can be compared against negative
  integers parsed from the URL);
* each Go method becomes a pure function from the store state to the new
  store state and the returned value;
* `strconv.Atoi` is modelled by `goAtoi` (optional sign, decimal digits,
  64-bit signed range check);
* handler functions return the HTTP status code together with the data
  written into the response body; paths are ASCII, so Go's byte slicing
  `path[10:]` coincides with `String.drop 10` on characters.
-/

namespace WebhookReceiver

/-- `StoredWebhook` from `src/main.go`: ID, opaque payload, receipt time. -/
structure StoredWebhook (α : Type) where
  ID : Int
  Payload : α
  Received : Nat
  deriving DecidableEq, Repr

/-- `WebhookStore` from `src/main.go` (the `sync.RWMutex` field is runtime
synchronisation state and has no pure-state counterpart). -/
structure WebhookStore (α : Type) where
  webhooks : List (StoredWebhook α)
  nextID : Int
  maxSize : Nat
  deriving DecidableEq, Repr

/-- The global `store` literal of `src/main.go`: empty slice, `nextID = 1`,
`maxSize = 5`. -/
def initialStore (α : Type) : WebhookStore α :=
  { webhooks := [], nextID := 1, maxSize := 5 }

/-- `WebhookStore.Add` from `src/main.go`: build the record from `nextID`
and the current time, append it, increment the counter, and if the slice
now exceeds `maxSize` drop its first (oldest) element.  Returns the new
state together with the assigned ID. -/
def WebhookStore.Add (ws : WebhookStore α) (payload : α) (now : Nat) :
    WebhookStore α × Int :=
  let storedWebhook : StoredWebhook α :=
    { ID := ws.nextID, Payload := payload, Received := now }
  let webhooks1 := ws.webhooks ++ [storedWebhook]
  let currentID := ws.nextID
  let nextID1 := ws.nextID + 1
  let webhooks2 := if webhooks1.length > ws.maxSize then webhooks1.drop 1 else webhooks1
  ({ webhooks := webhooks2, nextID := nextID1, maxSize := ws.maxSize }, currentID)

/-- `WebhookStore.GetAll` from `src/main.go`: a fresh slice of the same
length filled by the loop `result[i] = ws.webhooks[len-1-i]`. -/
def WebhookStore.GetAll (ws : WebhookStore α) : List (StoredWebhook α) :=
  List.ofFn fun i : Fin ws.webhooks.length =>
    ws.webhooks.get ⟨ws.webhooks.length - 1 - i.val, by have := i.isLt; omega⟩

/-- `WebhookStore.GetByID` from `src/main.go`: linear scan returning the
first record whose `ID` matches; `none` models the `(StoredWebhook{}, false)`
return. -/
def WebhookStore.GetByID (ws : WebhookStore α) (id : Int) :
    Option (StoredWebhook α) :=
  ws.webhooks.find? fun webhook => webhook.ID == id

/-- `WebhookStore.Clear` from `src/main.go`: record the current count,
replace the slice by a fresh empty one, reset `nextID` to 1, return the
prior count. -/
def WebhookStore.Clear (ws : WebhookStore α) : WebhookStore α × Nat :=
  ({ webhooks := [], nextID := 1, maxSize := ws.maxSize }, ws.webhooks.length)

/-- The state-mutating store operations (`GetAll`/`GetByID` leave the state
unchanged, so a sequence of operations is a sequence of these two). -/
inductive StoreOp (α : Type) where
  | add (payload : α) (now : Nat)
  | clear
  deriving DecidableEq, Repr

/-- Effect of one mutating operation on the store state. -/
def applyOp (ws : WebhookStore α) : StoreOp α → WebhookStore α
  | .add p t => (ws.Add p t).1
  | .clear => ws.Clear.1

/-- Run a sequence of mutating operations left to right. -/
def runOps (ws : WebhookStore α) : List (StoreOp α) → WebhookStore α
  | [] => ws
  | op :: ops => runOps (applyOp ws op) ops

/-- Run a sequence of `Add` calls (payload, receipt time), collecting the
IDs the calls return. -/
def addAll (ws : WebhookStore α) : List (α × Nat) → WebhookStore α × List Int
  | [] => (ws, [])
  | (p, t) :: ps =>
    let step := ws.Add p t
    let rest := addAll step.1 ps
    (rest.1, step.2 :: rest.2)

/-- Decimal digit accumulator for `goAtoi`: `none` on any non-digit. -/
def digitsToNat : List Char → Nat → Option Nat
  | [], acc => some acc
  | c :: cs, acc =>
    if c.isDigit then digitsToNat cs (acc * 10 + (c.toNat - 48)) else none

/-- Model of Go's `strconv.Atoi` on a 64-bit platform: optional single
sign, at least one decimal digit, value within `[-2^63, 2^63 - 1]`
(out-of-range input makes `Atoi` return a non-nil error, which the handler
treats the same as a parse failure). -/
def goAtoi (s : String) : Option Int :=
  match s.data with
  | [] => none
  | ['+'] => none
  | ['-'] => none
  | '+' :: cs =>
    (digitsToNat cs 0).bind fun n =>
      if n ≤ 2 ^ 63 - 1 then some (n : Int) else none
  | '-' :: cs =>
    (digitsToNat cs 0).bind fun n =>
      if n ≤ 2 ^ 63 then some (-(n : Int)) else none
  | cs =>
    (digitsToNat cs 0).bind fun n =>
      if n ≤ 2 ^ 63 - 1 then some (n : Int) else none

/-- The JSON object written by `webhookHandler` on success. -/
structure WebhookResponse where
  message : String
  id : Int
  deriving DecidableEq, Repr

/-- `webhookHandler` from `src/main.go`.  `body` is the result of decoding
the request body as JSON (`none` models a decode error).  Returns the new
store state, the HTTP status, and the success response body if any. -/
def webhookHandler (method : String) (body : Option α) (now : Nat)
    (ws : WebhookStore α) : WebhookStore α × Nat × Option WebhookResponse :=
  if method ≠ "POST" then (ws, 405, none)
  else
    match body with
    | none => (ws, 400, none)
    | some payload =>
      let step := ws.Add payload now
      (step.1, 200, some
        { message := "Webhook received and stored successfully", id := step.2 })

/-- `getWebhookByIDHandler` from `src/main.go`: non-GET → 405; path shorter
than 10 → 400; `Atoi(path[10:])` failure → 400; ID absent → 404; otherwise
200 with the stored webhook. -/
def getWebhookByIDHandler (method : String) (path : String)
    (ws : WebhookStore α) : Nat × Option (StoredWebhook α) :=
  if method ≠ "GET" then (405, none)
  else if path.length < 10 then (400, none)
  else
    match goAtoi (path.drop 10) with
    | none => (400, none)
    | some id =>
      match ws.GetByID id with
      | none => (404, none)
      | some webhook => (200, some webhook)

/-! ### Basic lemmas about the store operations -/

/-- `GetAll` is the reverse of the stored slice. -/
theorem getAll_eq_reverse (ws : WebhookStore α) :
    ws.GetAll = ws.webhooks.reverse := by
  apply List.ext_get
  · simp [WebhookStore.GetAll]
  · intro i h1 h2
    simp only [WebhookStore.GetAll, List.get_ofFn]
    rw [List.get_reverse' _ ⟨i, h2⟩ (by simp only [List.length_reverse] at h2; omega)]
    simp

/-- The IDs held after `k` `Add` calls on a fresh store of capacity `m`:
the last `min k m` values among `1, …, k`. -/
def idsAfter (k m : Nat) : List Int :=
  (List.range' (k - min k m + 1) (min k m)).map Int.ofNat

theorem length_idsAfter (k m : Nat) : (idsAfter k m).length = min k m := by
  unfold idsAfter
  rw [List.length_map, List.length_range']

/-- One `Add` on a store holding the last `min k m` of IDs `1..k` yields a
store holding the last `min (k+1) m` of IDs `1..(k+1)`, returns ID `k+1`,
and bumps the counter. -/
theorem add_fresh_step (ws : WebhookStore α) (p : α) (t : Nat) (k m : Nat)
    (hids : ws.webhooks.map (fun w => w.ID) = idsAfter k m)
    (hnext : ws.nextID = (k : Int) + 1) (hmax : ws.maxSize = m) :
    (ws.Add p t).1.webhooks.map (fun w => w.ID) = idsAfter (k + 1) m ∧
    (ws.Add p t).1.nextID = ((k : Int) + 1) + 1 ∧
    (ws.Add p t).1.maxSize = m ∧
    (ws.Add p t).2 = (k : Int) + 1 := by
  have hlen : ws.webhooks.length = min k m := by
    have h := congrArg List.length hids
    rw [List.length_map, length_idsAfter] at h
    exact h
  refine ⟨?_, by simp [WebhookStore.Add, hnext], by simp [WebhookStore.Add, hmax], by
    simp [WebhookStore.Add, hnext]⟩
  simp only [WebhookStore.Add]
  rcases Nat.lt_or_ge k m with hkm | hkm
  · rw [if_neg (by simp only [List.length_append, List.length_singleton, hlen, hmax]; omega)]
    rw [List.map_append, hids, hnext]
    have h1 : idsAfter k m = (List.range' 1 k).map Int.ofNat := by
      unfold idsAfter
      have e2 : min k m = k := by omega
      rw [e2]
      have e : k - k + 1 = 1 := by omega
      rw [e]
    have h2 : idsAfter (k + 1) m = (List.range' 1 k).map Int.ofNat ++
        [Int.ofNat (1 + 1 * k)] := by
      unfold idsAfter
      have e2 : min (k + 1) m = k + 1 := by omega
      rw [e2]
      have e : k + 1 - (k + 1) + 1 = 1 := by omega
      rw [e, List.range'_concat, List.map_append, List.map_cons, List.map_nil]
    have h3 : List.map (fun w : StoredWebhook α => w.ID)
        [{ ID := (k : Int) + 1, Payload := p, Received := t }] =
        [Int.ofNat (1 + 1 * k)] := by
      simp only [List.map_cons, List.map_nil, Int.ofNat_eq_coe]
      congr 1
      omega
    rw [h3, h1, h2]
  · rw [if_pos (by simp only [List.length_append, List.length_singleton, hlen, hmax]; omega)]
    rw [List.map_drop, List.map_append, hids, hnext]
    have h3 : List.map (fun w : StoredWebhook α => w.ID)
        [{ ID := (k : Int) + 1, Payload := p, Received := t }] =
        [Int.ofNat (k - m + 1 + 1 * m)] := by
      simp only [List.map_cons, List.map_nil, Int.ofNat_eq_coe]
      congr 1
      omega
    have h1 : idsAfter k m = (List.range' (k - m + 1) m).map Int.ofNat := by
      unfold idsAfter
      have e2 : min k m = m := by omega
      rw [e2]
    have h2 : idsAfter (k + 1) m = (List.range' (k - m + 1 + 1) m).map Int.ofNat := by
      unfold idsAfter
      have e2 : min (k + 1) m = m := by omega
      rw [e2]
      have e : k + 1 - m + 1 = k - m + 1 + 1 := by omega
      rw [e]
    rw [h3, h1, h2]
    rw [show [Int.ofNat (k - m + 1 + 1 * m)] =
      List.map Int.ofNat [k - m + 1 + 1 * m] from rfl]
    rw [← List.map_append, ← List.range'_concat, List.range'_succ, List.map_cons,
      List.drop_succ_cons, List.drop_zero]

/-- Running `Add` calls on a fresh store of capacity `m` that already did
`k` of them: the store keeps the last `min · m` IDs, the counter advances
by one per call, and the calls return IDs `k+1, …, k+len`. -/
theorem addAll_fresh (ps : List (α × Nat)) (k m : Nat) (ws : WebhookStore α)
    (hids : ws.webhooks.map (fun w => w.ID) = idsAfter k m)
    (hnext : ws.nextID = (k : Int) + 1) (hmax : ws.maxSize = m) :
    (addAll ws ps).1.webhooks.map (fun w => w.ID) = idsAfter (k + ps.length) m ∧
    (addAll ws ps).1.nextID = ((k + ps.length : Nat) : Int) + 1 ∧
    (addAll ws ps).1.maxSize = m ∧
    (addAll ws ps).2 = (List.range' (k + 1) ps.length).map Int.ofNat := by
  induction ps generalizing k ws with
  | nil =>
    refine ⟨by simpa using hids, by simpa using hnext, hmax, by simp [addAll]⟩
  | cons pt ps ih =>
    obtain ⟨p, t⟩ := pt
    have step := add_fresh_step ws p t k m hids hnext hmax
    have ih2 := ih (k + 1) (ws.Add p t).1 step.1
      (by rw [step.2.1]; push_cast; ring) step.2.2.1
    simp only [addAll]
    refine ⟨?_, ?_, ih2.2.2.1, ?_⟩
    · rw [ih2.1]
      congr 1
      simp only [List.length_cons]
      omega
    · rw [ih2.2.1]
      congr 1
      simp only [List.length_cons]
      push_cast
      ring
    · rw [List.length_cons, List.range'_succ, List.map_cons, ih2.2.2.2, step.2.2.2]
      congr 1

/-- One mutating operation never changes the capacity field. -/
theorem maxSize_applyOp (ws : WebhookStore α) (op : StoreOp α) :
    (applyOp ws op).maxSize = ws.maxSize := by
  cases op <;> rfl

/-- One mutating operation keeps the stored slice within capacity. -/
theorem length_applyOp (ws : WebhookStore α) (op : StoreOp α)
    (h : ws.webhooks.length ≤ ws.maxSize) :
    (applyOp ws op).webhooks.length ≤ (applyOp ws op).maxSize := by
  cases op with
  | add p t =>
    simp only [applyOp, WebhookStore.Add]
    rcases Nat.lt_or_ge ws.maxSize (ws.webhooks.length + 1) with hc | hc
    · rw [if_pos (by simp only [List.length_append, List.length_singleton]; omega)]
      simp only [List.length_drop, List.length_append, List.length_singleton]
      omega
    · rw [if_neg (by simp only [List.length_append, List.length_singleton]; omega)]
      simp only [List.length_append, List.length_singleton]
      omega
  | clear => simp [applyOp, WebhookStore.Clear]

/-- A run of mutating operations keeps the stored slice within capacity. -/
theorem length_runOps (ops : List (StoreOp α)) (ws : WebhookStore α)
    (h : ws.webhooks.length ≤ ws.maxSize) :
    (runOps ws ops).webhooks.length ≤ (runOps ws ops).maxSize := by
  induction ops generalizing ws with
  | nil => exact h
  | cons op ops ih => exact ih (applyOp ws op) (length_applyOp ws op h)

/-- A run of mutating operations never changes the capacity field. -/
theorem maxSize_runOps (ops : List (StoreOp α)) (ws : WebhookStore α) :
    (runOps ws ops).maxSize = ws.maxSize := by
  induction ops generalizing ws with
  | nil => rfl
  | cons op ops ih => rw [runOps, ih, maxSize_applyOp]

/-- The IDs returned by a run of `Add` calls start at the current `nextID`
and go up by one per call; the counter advances by the number of calls. -/
theorem addAll_ids (ps : List (α × Nat)) (ws : WebhookStore α) :
    (addAll ws ps).2 = (List.range ps.length).map (fun i : Nat => ws.nextID + (i : Int)) ∧
    (addAll ws ps).1.nextID = ws.nextID + ps.length := by
  induction ps generalizing ws with
  | nil => simp [addAll]
  | cons pt ps ih =>
    obtain ⟨p, t⟩ := pt
    have h1 : (ws.Add p t).1.nextID = ws.nextID + 1 := rfl
    have ihh := ih (ws.Add p t).1
    simp only [addAll]
    constructor
    · rw [ihh.1, h1, List.length_cons, List.range_succ_eq_map, List.map_cons, List.map_map]
      rw [List.cons_eq_cons]
      refine ⟨by simp [WebhookStore.Add], ?_⟩
      apply List.map_congr_left
      intro i _
      simp only [Function.comp_apply]
      push_cast
      ring
    · rw [ihh.2, h1, List.length_cons]
      push_cast
      ring

/-- One `Add` preserves the invariant that IDs in the store are strictly
increasing and all below the counter. -/
theorem add_sorted (ws : WebhookStore α) (p : α) (t : Nat)
    (hs : (ws.webhooks.map (fun w => w.ID)).Pairwise (· < ·))
    (hlt : ∀ w ∈ ws.webhooks, w.ID < ws.nextID) :
    ((ws.Add p t).1.webhooks.map (fun w => w.ID)).Pairwise (· < ·) ∧
    (∀ w ∈ (ws.Add p t).1.webhooks, w.ID < (ws.Add p t).1.nextID) := by
  have hnext : (ws.Add p t).1.nextID = ws.nextID + 1 := rfl
  have happ : ((ws.webhooks ++
      [({ ID := ws.nextID, Payload := p, Received := t } : StoredWebhook α)]).map
        (fun w => w.ID)).Pairwise (· < ·) := by
    rw [List.map_append]
    apply List.pairwise_append.2
    refine ⟨hs, by simp, ?_⟩
    intro a ha b hb
    rw [List.mem_map] at ha
    obtain ⟨w, hw, hwe⟩ := ha
    simp only [List.map_cons, List.map_nil, List.mem_singleton] at hb
    rw [← hwe, hb]
    exact hlt w hw
  constructor
  · simp only [WebhookStore.Add]
    split
    · rw [List.map_drop]
      exact happ.sublist (List.drop_sublist 1 _)
    · exact happ
  · intro w hw
    rw [hnext]
    have hw2 : w ∈ ws.webhooks ++
        [({ ID := ws.nextID, Payload := p, Received := t } : StoredWebhook α)] := by
      simp only [WebhookStore.Add] at hw
      split at hw
      · exact List.mem_of_mem_drop hw
      · exact hw
    rcases List.mem_append.1 hw2 with hmem | hmem
    · have := hlt w hmem
      omega
    · rw [List.mem_singleton] at hmem
      rw [hmem]
      show ws.nextID < ws.nextID + 1
      omega

/-- A run of `Add` calls preserves the strictly-increasing / below-counter
invariant on stored IDs. -/
theorem addAll_sorted (ps : List (α × Nat)) (ws : WebhookStore α)
    (hs : (ws.webhooks.map (fun w => w.ID)).Pairwise (· < ·))
    (hlt : ∀ w ∈ ws.webhooks, w.ID < ws.nextID) :
    ((addAll ws ps).1.webhooks.map (fun w => w.ID)).Pairwise (· < ·) ∧
    (∀ w ∈ (addAll ws ps).1.webhooks, w.ID < (addAll ws ps).1.nextID) := by
  induction ps generalizing ws with
  | nil => exact ⟨hs, hlt⟩
  | cons pt ps ih =>
    obtain ⟨p, t⟩ := pt
    simp only [addAll]
    exact ih (ws.Add p t).1 (add_sorted ws p t hs hlt).1 (add_sorted ws p t hs hlt).2

/-! ### Claims -/

/-- C1: Bounded-capacity invariant with FIFO eviction: every sequence of
store operations from the initial store keeps at most `maxSize = 5`
entries; and from the empty store, after `N > 5` `Add` calls `GetAll`
returns exactly 5 entries, the assigned IDs are `1, …, N` (so the smallest
assigned ID is 1), and the entry with ID 1 — the oldest — is absent. -/
theorem C1_bounded_capacity_fifo_eviction (α : Type) :
    (∀ ops : List (StoreOp α),
      (runOps (initialStore α) ops).webhooks.length ≤ 5) ∧
    (∀ ps : List (α × Nat), ps.length > 5 →
      ((addAll (initialStore α) ps).1.GetAll).length = 5 ∧
      (addAll (initialStore α) ps).2 = (List.range' 1 ps.length).map Int.ofNat ∧
      (addAll (initialStore α) ps).1.GetByID 1 = none) := by
  constructor
  · intro ops
    have h := length_runOps ops (initialStore α) (by simp [initialStore])
    rw [maxSize_runOps] at h
    exact h
  · intro ps hps
    have hfresh := addAll_fresh ps 0 5 (initialStore α)
      (by simp [initialStore, idsAfter]) (by norm_num [initialStore]) rfl
    have hl := congrArg List.length hfresh.1
    rw [List.length_map, length_idsAfter] at hl
    refine ⟨?_, ?_, ?_⟩
    · rw [getAll_eq_reverse, List.length_reverse, hl]
      omega
    · have h2 := hfresh.2.2.2
      simpa using h2
    · rw [WebhookStore.GetByID, List.find?_eq_none]
      intro w hw
      have hmem : w.ID ∈ idsAfter (0 + ps.length) 5 :=
        hfresh.1 ▸ List.mem_map_of_mem (fun w => w.ID) hw
      simp only [idsAfter, List.mem_map] at hmem
      obtain ⟨j, hj, hje⟩ := hmem
      rw [List.mem_range'_1] at hj
      rw [Int.ofNat_eq_coe] at hje
      simp only [beq_iff_eq]
      omega

/-- C1 witness: a concrete run (one `Add`, one `Clear`) stays within
capacity, and six `Add` calls on the fresh store keep five entries, return
IDs `1..6`, and evict the entry with ID 1. -/
theorem C1_bounded_capacity_fifo_eviction_witness :
    ((runOps (initialStore Nat) [StoreOp.add 7 0, StoreOp.clear]).webhooks.length ≤ 5) ∧
    ((6 : Nat) > 5 ∧
      ((addAll (initialStore Nat)
        [(10, 0), (11, 0), (12, 0), (13, 0), (14, 0), (15, 0)]).1.GetAll).length = 5 ∧
      (addAll (initialStore Nat)
        [(10, 0), (11, 0), (12, 0), (13, 0), (14, 0), (15, 0)]).2 =
        (List.range' 1 6).map Int.ofNat ∧
      (addAll (initialStore Nat)
        [(10, 0), (11, 0), (12, 0), (13, 0), (14, 0), (15, 0)]).1.GetByID 1 = none) := by
  refine ⟨(C1_bounded_capacity_fifo_eviction Nat).1 _, ?_⟩
  have h := (C1_bounded_capacity_fifo_eviction Nat).2
    [(10, 0), (11, 0), (12, 0), (13, 0), (14, 0), (15, 0)] (by decide)
  exact ⟨by decide, h.1, by simpa using h.2.1, h.2.2⟩

/-- C2: Round-trip of `Add` and `GetByID`: on any store state whose
capacity is positive and whose stored IDs are all below the counter (both
hold for every state the program reaches), `Add(P)` followed immediately by
`GetByID` of the returned ID finds the record: payload `P`, the returned
ID, and the stamped receipt time. -/
theorem C2_add_then_getByID (ws : WebhookStore α) (p : α) (t : Nat)
    (hcap : 0 < ws.maxSize) (hid : ∀ w ∈ ws.webhooks, w.ID < ws.nextID) :
    (ws.Add p t).1.GetByID (ws.Add p t).2 =
      some { ID := (ws.Add p t).2, Payload := p, Received := t } := by
  have hret : (ws.Add p t).2 = ws.nextID := rfl
  rw [hret]
  simp only [WebhookStore.Add, WebhookStore.GetByID]
  have key : ∀ l : List (StoredWebhook α), (∀ w ∈ l, w.ID ≠ ws.nextID) →
      (l ++ [({ ID := ws.nextID, Payload := p, Received := t } : StoredWebhook α)]).find?
        (fun w => w.ID == ws.nextID) =
        some { ID := ws.nextID, Payload := p, Received := t } := by
    intro l hl
    rw [List.find?_append]
    have h1 : l.find? (fun w => w.ID == ws.nextID) = none := by
      rw [List.find?_eq_none]
      intro w hw
      simpa using hl w hw
    rw [h1]
    simp [List.find?]
  split
  · next hlong =>
    rw [List.drop_append_of_le_length (by
      simp only [List.length_append, List.length_singleton] at hlong ⊢; omega)]
    exact key _ (fun w hw => Int.ne_of_lt (hid w (List.mem_of_mem_drop hw)))
  · exact key _ (fun w hw => Int.ne_of_lt (hid w hw))

/-- C2 witness: on the initial store, adding payload 42 at time 9 and
looking the returned ID up yields that exact record. -/
theorem C2_add_then_getByID_witness :
    (0 < (initialStore Nat).maxSize ∧
      (∀ w ∈ (initialStore Nat).webhooks, w.ID < (initialStore Nat).nextID)) ∧
    ((initialStore Nat).Add 42 9).1.GetByID ((initialStore Nat).Add 42 9).2 =
      some { ID := ((initialStore Nat).Add 42 9).2, Payload := 42, Received := 9 } :=
  ⟨⟨by decide, by decide⟩,
    C2_add_then_getByID (initialStore Nat) 42 9 (by decide) (by decide)⟩

/-- C3: Monotonic IDs: along any `Clear`-free run of `Add` calls from a
state whose stored IDs are strictly increasing and below the counter (true
of every reachable state), the returned IDs are strictly increasing, the
stored IDs stay strictly increasing — hence are unique (`Nodup`) — and the
counter only advances (by one per `Add`), never resetting. -/
theorem C3_monotonic_ids (ws : WebhookStore α) (ps : List (α × Nat))
    (hs : (ws.webhooks.map (fun w => w.ID)).Pairwise (· < ·))
    (hlt : ∀ w ∈ ws.webhooks, w.ID < ws.nextID) :
    (addAll ws ps).2.Pairwise (· < ·) ∧
    ((addAll ws ps).1.webhooks.map (fun w => w.ID)).Pairwise (· < ·) ∧
    ((addAll ws ps).1.webhooks.map (fun w => w.ID)).Nodup ∧
    (addAll ws ps).1.nextID = ws.nextID + ps.length := by
  have hsorted := addAll_sorted ps ws hs hlt
  refine ⟨?_, hsorted.1, hsorted.1.imp (fun h => Int.ne_of_lt h), (addAll_ids ps ws).2⟩
  rw [(addAll_ids ps ws).1]
  refine (List.pairwise_lt_range ps.length).map _ ?_
  intro a b hab
  omega

/-- C3 witness: two `Add` calls on the initial store return IDs `1 < 2`,
leave strictly increasing, duplicate-free stored IDs, and advance the
counter to 3. -/
theorem C3_monotonic_ids_witness :
    ((((initialStore Nat).webhooks.map (fun w => w.ID)).Pairwise (· < ·)) ∧
      (∀ w ∈ (initialStore Nat).webhooks, w.ID < (initialStore Nat).nextID)) ∧
    ((addAll (initialStore Nat) [(8, 1), (9, 2)]).2.Pairwise (· < ·) ∧
      ((addAll (initialStore Nat) [(8, 1), (9, 2)]).1.webhooks.map
        (fun w => w.ID)).Pairwise (· < ·) ∧
      ((addAll (initialStore Nat) [(8, 1), (9, 2)]).1.webhooks.map
        (fun w => w.ID)).Nodup ∧
      (addAll (initialStore Nat) [(8, 1), (9, 2)]).1.nextID =
        (initialStore Nat).nextID + [(8, 1), (9, 2)].length) :=
  ⟨⟨by decide, by decide⟩,
    C3_monotonic_ids (initialStore Nat) [(8, 1), (9, 2)] (by decide) (by decide)⟩

/-- C4: `Clear` semantics: `Clear` returns the number of entries stored at
the moment of the call, leaves the store empty (`GetAll` afterwards is the
empty sequence), and resets the counter so the next `Add` returns ID 1. -/
theorem C4_clear_semantics (ws : WebhookStore α) :
    ws.Clear.2 = ws.webhooks.length ∧
    ws.Clear.1.GetAll = [] ∧
    ws.Clear.1.webhooks = [] ∧
    (∀ p t, (ws.Clear.1.Add p t).2 = 1) := by
  refine ⟨rfl, ?_, rfl, fun p t => rfl⟩
  rw [getAll_eq_reverse]
  rfl

/-- C5: `GetAll` returns the stored sequence in most-recent-first order —
the exact reverse of insertion order of the retained entries — containing
exactly the retained entries unchanged (it reads, never writes, the
state). -/
theorem C5_getAll_most_recent_first (ws : WebhookStore α) :
    ws.GetAll = ws.webhooks.reverse ∧
    (∀ w : StoredWebhook α, w ∈ ws.GetAll ↔ w ∈ ws.webhooks) := by
  refine ⟨getAll_eq_reverse ws, fun w => ?_⟩
  rw [getAll_eq_reverse, List.mem_reverse]

/-- C6: `GetByID` total lookup: a `some` result has the requested ID and is
a stored entry, and the result is `none` exactly when no stored entry
carries the requested ID. -/
theorem C6_getByID_total (ws : WebhookStore α) (id : Int) :
    (∀ w, ws.GetByID id = some w → w.ID = id ∧ w ∈ ws.webhooks) ∧
    (ws.GetByID id = none ↔ ∀ w ∈ ws.webhooks, w.ID ≠ id) := by
  constructor
  · intro w hw
    have h1 := List.find?_some hw
    have h2 := List.mem_of_find?_eq_some hw
    exact ⟨by simpa using h1, h2⟩
  · rw [WebhookStore.GetByID, List.find?_eq_none]
    constructor <;> intro h w hw <;> simpa using h w hw

/-- C6 witness: instance of the lookup contract on the store holding one
entry with ID 1. -/
theorem C6_getByID_total_witness :
    (∀ w, ((initialStore Nat).Add 3 4).1.GetByID 1 = some w →
      w.ID = 1 ∧ w ∈ ((initialStore Nat).Add 3 4).1.webhooks) ∧
    (((initialStore Nat).Add 3 4).1.GetByID 1 = none ↔
      ∀ w ∈ ((initialStore Nat).Add 3 4).1.webhooks, w.ID ≠ 1) :=
  C6_getByID_total ((initialStore Nat).Add 3 4).1 1

/-- C7: `GET /webhooks/{id}` status mapping: non-GET → 405; unparsable ID
segment (path too short for the `path[10:]` slice, or `Atoi` failure) →
400; well-formed ID absent from the store → 404; present ID → 200 with the
stored webhook as the body. -/
theorem C7_get_by_id_status_mapping (method path : String) (ws : WebhookStore α) :
    (method ≠ "GET" → getWebhookByIDHandler method path ws = (405, none)) ∧
    (method = "GET" → path.length < 10 ∨ goAtoi (path.drop 10) = none →
      getWebhookByIDHandler method path ws = (400, none)) ∧
    (∀ id, method = "GET" → 10 ≤ path.length → goAtoi (path.drop 10) = some id →
      ws.GetByID id = none → getWebhookByIDHandler method path ws = (404, none)) ∧
    (∀ id w, method = "GET" → 10 ≤ path.length → goAtoi (path.drop 10) = some id →
      ws.GetByID id = some w → getWebhookByIDHandler method path ws = (200, some w)) := by
  refine ⟨?_, ?_, ?_, ?_⟩
  · intro h
    simp [getWebhookByIDHandler, h]
  · intro hm hbad
    subst hm
    rcases hbad with hlen | hatoi
    · simp [getWebhookByIDHandler, hlen]
    · by_cases hlen : path.length < 10
      · simp [getWebhookByIDHandler, hlen]
      · simp [getWebhookByIDHandler, hlen, hatoi]
  · intro id hm hlen hatoi hfind
    subst hm
    have hlen2 : ¬ path.length < 10 := by omega
    simp [getWebhookByIDHandler, hlen2, hatoi, hfind]
  · intro id w hm hlen hatoi hfind
    subst hm
    have hlen2 : ¬ path.length < 10 := by omega
    simp [getWebhookByIDHandler, hlen2, hatoi, hfind]

/-- C7 witness: the four status codes on concrete requests: POST → 405;
a non-numeric ID segment → 400; ID 7 on the empty store → 404; ID 1 after
one `Add` → 200 with the stored record. -/
theorem C7_get_by_id_status_mapping_witness :
    getWebhookByIDHandler "POST" "/webhooks/1" (initialStore Nat) = (405, none) ∧
    getWebhookByIDHandler "GET" "/webhooks/x" (initialStore Nat) = (400, none) ∧
    getWebhookByIDHandler "GET" "/webhooks/7" (initialStore Nat) = (404, none) ∧
    getWebhookByIDHandler "GET" "/webhooks/1" ((initialStore Nat).Add 99 3).1 =
      (200, some { ID := 1, Payload := 99, Received := 3 }) :=
  ⟨(C7_get_by_id_status_mapping "POST" "/webhooks/1" (initialStore Nat)).1 (by decide),
    (C7_get_by_id_status_mapping "GET" "/webhooks/x" (initialStore Nat)).2.1 rfl
      (Or.inr (by decide)),
    (C7_get_by_id_status_mapping "GET" "/webhooks/7" (initialStore Nat)).2.2.1 7 rfl
      (by decide) (by decide) (by decide),
    (C7_get_by_id_status_mapping "GET" "/webhooks/1"
        ((initialStore Nat).Add 99 3).1).2.2.2 1 { ID := 1, Payload := 99, Received := 3 }
      rfl (by decide) (by decide) (by decide)⟩

/-- C8: `POST /webhook` behavior: non-POST → 405 with the store untouched;
invalid JSON body → 400 with the store untouched; any decoded JSON body →
stored via `Add`, answered 200 with a message and the assigned ID. -/
theorem C8_webhook_post_behavior (method : String) (body : Option α) (t : Nat)
    (ws : WebhookStore α) :
    (method ≠ "POST" → webhookHandler method body t ws = (ws, 405, none)) ∧
    (body = none → webhookHandler "POST" body t ws = (ws, 400, none)) ∧
    (∀ p, body = some p → webhookHandler "POST" body t ws =
      ((ws.Add p t).1, 200,
        some { message := "Webhook received and stored successfully",
               id := (ws.Add p t).2 })) := by
  refine ⟨?_, ?_, ?_⟩
  · intro h
    simp [webhookHandler, h]
  · intro h
    subst h
    simp [webhookHandler]
  · intro p h
    subst h
    simp [webhookHandler]

/-- C8 witness: the three behaviors on concrete requests against the
initial store. -/
theorem C8_webhook_post_behavior_witness :
    webhookHandler "GET" (some 5) 0 (initialStore Nat) =
      (initialStore Nat, 405, none) ∧
    webhookHandler "POST" (none : Option Nat) 0 (initialStore Nat) =
      (initialStore Nat, 400, none) ∧
    webhookHandler "POST" (some 5) 0 (initialStore Nat) =
      (((initialStore Nat).Add 5 0).1, 200,
        some { message := "Webhook received and stored successfully",
               id := ((initialStore Nat).Add 5 0).2 }) :=
  ⟨(C8_webhook_post_behavior "GET" (some 5) 0 (initialStore Nat)).1 (by decide),
    (C8_webhook_post_behavior "POST" (none : Option Nat) 0 (initialStore Nat)).2.1 rfl,
    (C8_webhook_post_behavior "POST" (some 5) 0 (initialStore Nat)).2.2 5 rfl⟩

/-- One mutating operation keeps the counter and every stored ID at least
1. -/
theorem applyOp_ids_pos (ws : WebhookStore α) (op : StoreOp α)
    (h1 : 1 ≤ ws.nextID) (h2 : ∀ w ∈ ws.webhooks, 1 ≤ w.ID) :
    1 ≤ (applyOp ws op).nextID ∧ ∀ w ∈ (applyOp ws op).webhooks, 1 ≤ w.ID := by
  cases op with
  | add p t =>
    refine ⟨?_, ?_⟩
    · show 1 ≤ ws.nextID + 1
      omega
    · intro w hw
      have hw2 : w ∈ ws.webhooks ++
          [({ ID := ws.nextID, Payload := p, Received := t } : StoredWebhook α)] := by
        simp only [applyOp, WebhookStore.Add] at hw
        split at hw
        · exact List.mem_of_mem_drop hw
        · exact hw
      rcases List.mem_append.1 hw2 with hmem | hmem
      · exact h2 w hmem
      · rw [List.mem_singleton] at hmem
        rw [hmem]
        exact h1
  | clear =>
    refine ⟨le_refl 1, ?_⟩
    intro w hw
    simp [applyOp, WebhookStore.Clear] at hw

/-- A run of mutating operations keeps the counter and every stored ID at
least 1. -/
theorem runOps_ids_pos (ops : List (StoreOp α)) (ws : WebhookStore α)
    (h1 : 1 ≤ ws.nextID) (h2 : ∀ w ∈ ws.webhooks, 1 ≤ w.ID) :
    1 ≤ (runOps ws ops).nextID ∧ ∀ w ∈ (runOps ws ops).webhooks, 1 ≤ w.ID := by
  induction ops generalizing ws with
  | nil => exact ⟨h1, h2⟩
  | cons op ops ih =>
    exact ih (applyOp ws op) (applyOp_ids_pos ws op h1 h2).1 (applyOp_ids_pos ws op h1 h2).2

/-- C10: a `GET /webhooks/{id}` request whose ID segment parses to a zero
or negative integer is not rejected as malformed: on every store state the
program can reach, the lookup proceeds and yields 404, because assigned IDs
are always at least 1. -/
theorem C10_nonpositive_id_yields_404 (ops : List (StoreOp α)) (path : String)
    (id : Int) (hlen : 10 ≤ path.length) (hparse : goAtoi (path.drop 10) = some id)
    (hid : id ≤ 0) :
    getWebhookByIDHandler "GET" path (runOps (initialStore α) ops) = (404, none) := by
  have hpos := (runOps_ids_pos ops (initialStore α) (by norm_num [initialStore])
    (by simp [initialStore])).2
  have hfind : (runOps (initialStore α) ops).GetByID id = none := by
    rw [WebhookStore.GetByID, List.find?_eq_none]
    intro w hw
    have hwpos := hpos w hw
    simp only [beq_iff_eq]
    omega
  have hlen2 : ¬ path.length < 10 := by omega
  simp [getWebhookByIDHandler, hlen2, hparse, hfind]

/-- C10 witness: requests with ID segments "-1" and "0" yield 404 (not
400) after one `Add` on the initial store. -/
theorem C10_nonpositive_id_yields_404_witness :
    ((10 : Nat) ≤ ("/webhooks/-1" : String).length ∧
      goAtoi (("/webhooks/-1" : String).drop 10) = some (-1) ∧ (-1 : Int) ≤ 0 ∧
      getWebhookByIDHandler "GET" "/webhooks/-1"
        (runOps (initialStore Nat) [StoreOp.add 7 0]) = (404, none)) ∧
    (goAtoi (("/webhooks/0" : String).drop 10) = some 0 ∧
      getWebhookByIDHandler "GET" "/webhooks/0"
        (runOps (initialStore Nat) [StoreOp.add 7 0]) = (404, none)) :=
  ⟨⟨by decide, by decide, by decide,
      C10_nonpositive_id_yields_404 [StoreOp.add 7 0] "/webhooks/-1" (-1)
        (by decide) (by decide) (by decide)⟩,
    ⟨by decide,
      C10_nonpositive_id_yields_404 [StoreOp.add 7 0] "/webhooks/0" 0
        (by decide) (by decide) (by decide)⟩⟩

end WebhookReceiver
